import Mathlib

/-!
A verification development for the time-dependent advection-diffusion
inverse-problem model (file model_ad_diff.py): the space-time pointwise
misfit component (SpaceTimePointwiseStateObservation) and the PDE model
component (TimeDependentAD).

Embedding conventions.
Spatial vectors are rational-valued functions on Fin n (one entry per
degree of freedom); assembled operators are Mathlib matrices over the
rationals.  Time-indexed vector containers (hIPPYlib
TimeDependentVector) are functions from a natural-number time index to
a spatial vector; the simulation grid is the index range 0..nt where
nt is the number of time steps, so simulation_times with subscript k
becomes the index k, and the uniform step dt is kept as a rational
field.  The store operation of a container is Function.update, and the
Python time loops become List.foldl over the corresponding index
lists, preserving iteration order.  External collaborators are kept
abstract exactly where the source delegates to them: the factorized
linear solver becomes a function argument (its exactness on the
current operator is a hypothesis of the relevant theorems), and the
symbolic weak-form assembly and differentiation backend becomes
abstract function fields of the model structure (Nof for the assembled
transport operator, dGm for the assembled first derivative of the
residual form with respect to the parameter, and the d2 fields for the
directional second derivatives used by apply_ij with methodType = 1).
The assembly of pde_varf with the trial and test roles swapped yields
the transpose of the forward transport matrix, which is how the
adjoint operator is formed below.
-/

namespace ModelAD

open Matrix

/-- Spatial vectors: one rational entry per degree of freedom. -/
abbrev Vec (n : ℕ) := Fin n → ℚ

/-- hIPPYlib role tag for the state variable (shared integer tags in the source). -/
def STATE : ℕ := 0

/-- hIPPYlib role tag for the parameter variable. -/
def PARAMETER : ℕ := 1

/-- hIPPYlib role tag for the adjoint variable. -/
def ADJOINT : ℕ := 2

/-- The triple x = [u, m, p] of state history, parameter and adjoint history. -/
structure Triple (n np : ℕ) where
  u : ℕ → Vec n
  m : Vec np
  p : ℕ → Vec n

/-- SpaceTimePointwiseStateObservation: the pointwise observation operator B,
the list of observation time indices (a subset of the simulation grid),
the observed data d (meaningful at observation times) and the scalar
noise variance. -/
structure Misfit (n no : ℕ) where
  B : Matrix (Fin no) (Fin n) ℚ
  obsTimes : List ℕ
  d : ℕ → Vec no
  noise_variance : ℚ

/-- The external prior: precision operator R, mean, and the solver for the
prior mass matrix (prior.Msolver.solve). -/
structure Prior (np : ℕ) where
  R : Matrix (Fin np) (Fin np) ℚ
  mean : Vec np
  Msolve : Vec np → Vec np

/-- TimeDependentAD: the constant assembled operators (mass M, the two
stabilization-augmented mass operators M_stab and Mt_stab, and the
stabilization matrix stab), the uniform time step dt, the number of
time steps nt (the grid is 0..nt), the initial condition ic, and the
abstract weak-form assembly backend: Nof m is the assembled transport
operator pde_varf(utrial, m, utest); dGm u m p is the assembled
derivative of pde_varf(u, m, p) with respect to m; the d2 fields are
the assembled directional second derivatives used by apply_ij with
methodType = 1: d2_m_u u m p dm is (d/du)(d/dm in direction dm) of the
residual form, d2_m_p its (d/dp)(d/dm) analogue, d2_m_m the
(d/dm)(d/dm) one, d2_p_m u m p dp the (d/dm)(d/dp in direction dp)
one, and d2_u_m u m p du the (d/dm)(d/du in direction du) one. -/
structure TDModel (n np : ℕ) where
  nt : ℕ
  dt : ℚ
  ic : Vec n
  M : Matrix (Fin n) (Fin n) ℚ
  M_stab : Matrix (Fin n) (Fin n) ℚ
  Mt_stab : Matrix (Fin n) (Fin n) ℚ
  stab : Matrix (Fin n) (Fin n) ℚ
  Nof : Vec np → Matrix (Fin n) (Fin n) ℚ
  dGm : Vec n → Vec np → Vec n → Vec np
  d2_m_u : Vec n → Vec np → Vec n → Vec np → Vec n
  d2_m_p : Vec n → Vec np → Vec n → Vec np → Vec n
  d2_m_m : Vec n → Vec np → Vec n → Vec np → Vec np
  d2_p_m : Vec n → Vec np → Vec n → Vec n → Vec np
  d2_u_m : Vec n → Vec np → Vec n → Vec n → Vec np

/-- The index list of simulation_times sliced from position 1, over which
every forward time loop of the source iterates. -/
def stepTimes (nt : ℕ) : List ℕ :=
  (List.range (nt + 1)).drop 1

/-- The reversed full index list of simulation_times, over which the
backward (adjoint) time loops of the source iterate. -/
def revTimes (nt : ℕ) : List ℕ :=
  (List.range (nt + 1)).reverse

/-- One marching loop of the source: iterate over the time indices ts,
carrying the pair of the time-indexed output container and the vector
uold; at each index t the new vector g t uold is stored at t and
becomes uold. -/
def marchOut {n : ℕ} (g : ℕ → Vec n → Vec n) (s : (ℕ → Vec n) × Vec n)
    (ts : List ℕ) : (ℕ → Vec n) × Vec n :=
  ts.foldl (fun s t => (Function.update s.1 t (g t s.2), g t s.2)) s

/-- The forward recurrence implemented by the forward marching loops:
value u0 at index 0 and g (k+1) applied to the previous value afterwards. -/
def fwdSeq {n : ℕ} (g : ℕ → Vec n → Vec n) (u0 : Vec n) : ℕ → Vec n
  | 0 => u0
  | k + 1 => g (k + 1) (fwdSeq g u0 k)

/-- The backward recurrence implemented by the adjoint marching loops:
adjGo g p0 T k is the vector computed at time index T - k when the
backward sweep starts at top index T with incoming future value p0. -/
def adjGo {n : ℕ} (g : ℕ → Vec n → Vec n) (p0 : Vec n) (T : ℕ) : ℕ → Vec n
  | 0 => g T p0
  | k + 1 => g (T - (k + 1)) (adjGo g p0 T k)

/-- Misfit cost: the loop over observation times accumulating the squared
residual of B applied to the state against the data, divided once by
twice the noise variance. -/
def Misfit.cost {n no np : ℕ} (mf : Misfit n no) (x : Triple n np) : ℚ :=
  (mf.obsTimes.foldl
      (fun c t =>
        c + dotProduct (mf.B.mulVec (x.u t) - mf.d t) (mf.B.mulVec (x.u t) - mf.d t))
      0)
    / (2 * mf.noise_variance)

/-- Misfit gradient: the output container is zeroed; when the block index i
is the state tag, the loop over observation times stores the
transposed observation operator applied to the scaled residual; for
any other tag the zeroed container is returned unchanged.  The
previous contents of the container out are discarded by the initial
zeroing, so only its role as a container remains. -/
def Misfit.grad {n no np : ℕ} (mf : Misfit n no) (i : ℕ) (x : Triple n np)
    (out : ℕ → Vec n) : ℕ → Vec n :=
  let out0 : ℕ → Vec n := fun _ => 0
  if i = STATE then
    mf.obsTimes.foldl
      (fun o t =>
        Function.update o t
          (mf.B.transpose.mulVec
            ((1 / mf.noise_variance) • (mf.B.mulVec (x.u t) - mf.d t))))
      out0
  else
    out0

/-- Misfit second derivative: zero the output; only the state-state block
stores, at each observation time, the transposed observation operator
applied to the scaled image of the direction; every other block pair
falls through the conditional and leaves the zeroed container. -/
def Misfit.apply_ij {n no : ℕ} (mf : Misfit n no) (i j : ℕ)
    (direction : ℕ → Vec n) (out : ℕ → Vec n) : ℕ → Vec n :=
  let out0 : ℕ → Vec n := fun _ => 0
  if i = STATE ∧ j = STATE then
    mf.obsTimes.foldl
      (fun o t =>
        Function.update o t
          (mf.B.transpose.mulVec
            ((1 / mf.noise_variance) • mf.B.mulVec (direction t))))
      out0
  else
    out0

/-- The implicit forward operator built by define_Fwd_solver:
L = M + dt * N(m) + stab, with N assembled at the given parameter. -/
def Lmat {n np : ℕ} (mdl : TDModel n np) (m : Vec np) : Matrix (Fin n) (Fin n) ℚ :=
  mdl.M + mdl.dt • mdl.Nof m + mdl.stab

/-- The implicit adjoint operator built by define_Adj_solver: assembling
pde_varf with trial and test swapped yields the transposed transport
matrix, so Lt = M + dt * N(m)^T + stab. -/
def Ltmat {n np : ℕ} (mdl : TDModel n np) (m : Vec np) : Matrix (Fin n) (Fin n) ℚ :=
  mdl.M + mdl.dt • (mdl.Nof m).transpose + mdl.stab

/-- solveFwd with distinct containers: out is zeroed, the initial
condition is stored into the state component of x at index 0, uold is
read back from that slot, and the loop over stepTimes stores the
solve of the implicit system against M_stab times the previous state;
lsolve is the external factorized solver for the operator Lmat mdl x.m
set by define_Fwd_solver.  The returned pair is the final contents of
out and the final triple. -/
def TDModel.solveFwd {n np : ℕ} (mdl : TDModel n np) (lsolve : Vec n → Vec n)
    (out : ℕ → Vec n) (x : Triple n np) : (ℕ → Vec n) × Triple n np :=
  let out0 : ℕ → Vec n := fun _ => 0
  let xs : ℕ → Vec n := Function.update x.u 0 mdl.ic
  let r := marchOut (fun _ uold => lsolve (mdl.M_stab.mulVec uold)) (out0, xs 0)
      (stepTimes mdl.nt)
  (r.1, ⟨xs, x.m, x.p⟩)

/-- solveFwd as invoked everywhere in the repository, with the output
container aliased to the state component of x (the call
solveFwd(x[STATE], x)): the single shared container is zeroed, the
initial condition is stored at index 0, and the forward march stores
each new state at its time index.  The resulting triple carries the
full state history. -/
def TDModel.solveFwdSelf {n np : ℕ} (mdl : TDModel n np) (lsolve : Vec n → Vec n)
    (x : Triple n np) : Triple n np :=
  let s0 : ℕ → Vec n := Function.update (fun _ => (0 : Vec n)) 0 mdl.ic
  let r := marchOut (fun _ uold => lsolve (mdl.M_stab.mulVec uold)) (s0, s0 0)
      (stepTimes mdl.nt)
  ⟨r.1, x.m, x.p⟩

/-- solveFwdIncremental: the solution container is zeroed, the zero vector
is stored at the initial index, and the loop over stepTimes solves the
same factorized forward operator against M_stab times the previous
increment minus the supplied right-hand side at the current time.
The previous contents of sol are discarded by the initial zeroing. -/
def TDModel.solveFwdIncremental {n np : ℕ} (mdl : TDModel n np)
    (lsolve : Vec n → Vec n) (sol : ℕ → Vec n) (rhs : ℕ → Vec n) : ℕ → Vec n :=
  let sol0 : ℕ → Vec n := fun _ => 0
  let u0 : Vec n := 0
  let sol1 : ℕ → Vec n := Function.update sol0 0 u0
  (marchOut (fun t uold => lsolve (mdl.M_stab.mulVec uold - rhs t)) (sol1, u0)
      (stepTimes mdl.nt)).1

/-- solveAdj: the forcing grad_state is the misfit state gradient of the
frozen state history (computed into a freshly initialized container);
out is zeroed and the backward loop over revTimes solves the adjoint
operator against Mt_stab times the previous (future) adjoint minus the
forcing, starting from a zero-initialized pold at the final time;
lsolvet is the external factorized solver for Ltmat mdl x.m set by
define_Adj_solver. -/
def TDModel.solveAdj {n no np : ℕ} (mdl : TDModel n np) (mf : Misfit n no)
    (lsolvet : Vec n → Vec n) (out : ℕ → Vec n) (x : Triple n np) : ℕ → Vec n :=
  let gs : ℕ → Vec n := Misfit.grad mf STATE x (fun _ => 0)
  let out0 : ℕ → Vec n := fun _ => 0
  (marchOut (fun t pold => lsolvet (mdl.Mt_stab.mulVec pold - gs t))
      (out0, (0 : Vec n)) (revTimes mdl.nt)).1

/-- updategrade: the output is zeroed, the loop over stepTimes adds the
assembled derivative of the residual form with respect to the
parameter at the stored state and adjoint, and the result is scaled
once by dt. -/
def TDModel.updategrade {n np : ℕ} (mdl : TDModel n np) (x : Triple n np) : Vec np :=
  mdl.dt •
    ((stepTimes mdl.nt).foldl
      (fun acc t => acc + mdl.dGm (x.u t) x.m (x.p t)) (0 : Vec np))

/-- evalGradientParameter: mg is the regularization gradient R (m - mean)
unless misfit_only is set (then zero), plus the updategrade
contribution; the returned scalar applies the prior mass solver to mg
and takes the inner product with mg. -/
def TDModel.evalGradientParameter {n np : ℕ} (mdl : TDModel n np) (pr : Prior np)
    (x : Triple n np) (misfit_only : Bool) : Vec np × ℚ :=
  let mg0 : Vec np :=
    if misfit_only = false then pr.R.mulVec (x.m - pr.mean) else 0
  let mg1 : Vec np := mdl.updategrade x
  let mg : Vec np := mg0 + mg1
  let g : Vec np := pr.Msolve mg
  (mg, dotProduct g mg)

/-- The two container layouts apply_ij writes into: a time-indexed
container over the state space, or a single spatial vector in the
parameter space. -/
inductive BVec (n np : ℕ) where
  | timeIdx (f : ℕ → Vec n) : BVec n np
  | spatial (v : Vec np) : BVec n np

/-- Zeroing a container of either layout (the out.zero() call). -/
def BVec.zeroLike {n np : ℕ} : BVec n np → BVec n np
  | BVec.timeIdx _ => BVec.timeIdx (fun _ => 0)
  | BVec.spatial _ => BVec.spatial 0

/-- Discriminator for the time-indexed layout. -/
def BVec.isTimeIdx {n np : ℕ} : BVec n np → Bool
  | BVec.timeIdx _ => true
  | BVec.spatial _ => false

/-- Discriminator for a normally returned (non-raising) call. -/
def exceptOk {n np : ℕ} : Except Unit (BVec n np) → Bool
  | Except.ok _ => true
  | Except.error _ => false

/-- The model second-derivative block dispatcher apply_ij, evaluated at
the frozen linearization point x (self.x set by
setPointForHessianEvaluations) via the direct symbolic second
differentiation path (methodType = 1).  The output container is zeroed
first.  The state-parameter and adjoint-parameter blocks store a zero
vector at index 0 and then, for each later index, the dt-scaled
directional second derivative; the parameter-parameter,
parameter-adjoint and parameter-state blocks accumulate the
per-time-step second derivative into a single spatial vector and scale
the total once by dt.  Any pair of tags matched by no branch falls
through the conditional chain and the zeroed container is returned
normally.  A direction whose layout does not fit the branch is an
error value (in the source this is a backend exception). -/
def TDModel.apply_ij {n np : ℕ} (mdl : TDModel n np) (x : Triple n np) (i j : ℕ)
    (direction : BVec n np) (out : BVec n np) : Except Unit (BVec n np) :=
  let out := BVec.zeroLike out
  if ¬ (i = STATE ∧ j = STATE) then
    if i = STATE ∧ j = PARAMETER then
      match direction with
      | BVec.spatial dm =>
          let base : ℕ → Vec n := Function.update (fun _ => (0 : Vec n)) 0 (0 : Vec n)
          let f := (stepTimes mdl.nt).foldl
            (fun o t =>
              Function.update o t (mdl.dt • mdl.d2_m_u (x.u t) x.m (x.p t) dm))
            base
          Except.ok (BVec.timeIdx f)
      | BVec.timeIdx _ => Except.error ()
    else if i = ADJOINT ∧ j = PARAMETER then
      match direction with
      | BVec.spatial dm =>
          let base : ℕ → Vec n := Function.update (fun _ => (0 : Vec n)) 0 (0 : Vec n)
          let f := (stepTimes mdl.nt).foldl
            (fun o t =>
              Function.update o t (mdl.dt • mdl.d2_m_p (x.u t) x.m (x.p t) dm))
            base
          Except.ok (BVec.timeIdx f)
      | BVec.timeIdx _ => Except.error ()
    else if i = PARAMETER ∧ j = PARAMETER then
      match direction with
      | BVec.spatial dm =>
          let v := (stepTimes mdl.nt).foldl
            (fun acc t => acc + mdl.d2_m_m (x.u t) x.m (x.p t) dm) (0 : Vec np)
          Except.ok (BVec.spatial (mdl.dt • v))
      | BVec.timeIdx _ => Except.error ()
    else if i = PARAMETER ∧ j = ADJOINT then
      match direction with
      | BVec.timeIdx dv =>
          let v := (stepTimes mdl.nt).foldl
            (fun acc t => acc + mdl.d2_p_m (x.u t) x.m (x.p t) (dv t)) (0 : Vec np)
          Except.ok (BVec.spatial (mdl.dt • v))
      | BVec.spatial _ => Except.error ()
    else if i = PARAMETER ∧ j = STATE then
      match direction with
      | BVec.timeIdx dv =>
          let v := (stepTimes mdl.nt).foldl
            (fun acc t => acc + mdl.d2_u_m (x.u t) x.m (x.p t) (dv t)) (0 : Vec np)
          Except.ok (BVec.spatial (mdl.dt • v))
      | BVec.spatial _ => Except.error ()
    else
      Except.ok out
  else
    Except.ok out

/-- A concrete one-dimensional model instance with one time step, used to
evaluate the definitions at explicit inputs. -/
def exModel : TDModel 1 1 where
  nt := 1
  dt := 1
  ic := fun _ => 1
  M := 1
  M_stab := 1
  Mt_stab := 1
  stab := 0
  Nof := fun _ => 0
  dGm := fun _ _ _ => fun _ => 1
  d2_m_u := fun _ _ _ dm => fun _ => dm 0
  d2_m_p := fun _ _ _ dm => fun _ => dm 0
  d2_m_m := fun _ _ _ dm => fun _ => dm 0
  d2_p_m := fun _ _ _ dv => fun _ => dv 0
  d2_u_m := fun _ _ _ dv => fun _ => dv 0

/-- A concrete linearization triple for the one-dimensional instance. -/
def exX : Triple 1 1 :=
  ⟨fun _ => fun _ => 1, fun _ => 1, fun _ => fun _ => 1⟩

/-- A concrete misfit instance: identity observation operator, one
observation time (index 1), zero data, unit noise variance. -/
def exMisfit : Misfit 1 1 :=
  ⟨1, [1], fun _ => fun _ => 0, 1⟩

/-- A concrete prior instance with identity precision and identity mass
solver. -/
def exPrior : Prior 1 :=
  ⟨1, fun _ => 0, id⟩

/-- A second triple whose state history agrees with exX at the observation
time (index 1) but differs at the non-observation time 0. -/
def exXb : Triple 1 1 :=
  ⟨fun t => if t = 1 then (fun _ => 1) else (fun _ => 5), fun _ => 1,
    fun _ => fun _ => 1⟩

/-- The forward iteration index list is the successor image of List.range. -/
theorem stepTimes_eq_map (nt : ℕ) : stepTimes nt = (List.range nt).map Nat.succ := by
  simp [stepTimes, List.range_succ_eq_map]

/-- Membership in the forward iteration index list. -/
theorem mem_stepTimes {nt t : ℕ} : t ∈ stepTimes nt ↔ 1 ≤ t ∧ t ≤ nt := by
  rw [stepTimes_eq_map]
  simp only [List.mem_map, List.mem_range]
  constructor
  · rintro ⟨a, ha, rfl⟩
    omega
  · rintro ⟨h1, h2⟩
    exact ⟨t - 1, by omega, by omega⟩

/-- The backward iteration list for a single time. -/
theorem revTimes_zero : revTimes 0 = [0] := rfl

/-- The backward iteration list starts at the top index. -/
theorem revTimes_succ (T : ℕ) : revTimes (T + 1) = (T + 1) :: revTimes T := by
  simp [revTimes, List.range_succ]

/-- Evaluating a loop of stores whose stored value depends only on the
index: the result holds the value at indices in the list and the base
elsewhere. -/
theorem foldl_update_apply {β : Type} (g : ℕ → β) (l : List ℕ) (base : ℕ → β)
    (t : ℕ) :
    (l.foldl (fun o s => Function.update o s (g s)) base) t
      = if t ∈ l then g t else base t := by
  induction l generalizing base with
  | nil => simp
  | cons s l ih =>
      rw [List.foldl_cons, ih]
      by_cases hmem : t ∈ l
      · simp [hmem]
      · by_cases hts : t = s
        · subst hts
          simp [hmem, Function.update_same]
        · simp [hmem, hts, Function.update_noteq hts]

/-- An accumulation loop is the sum of the mapped list. -/
theorem foldl_add_eq {β : Type} [AddCommMonoid β] (g : ℕ → β) (l : List ℕ)
    (a : β) :
    l.foldl (fun acc t => acc + g t) a = a + (l.map g).sum := by
  induction l generalizing a with
  | nil => simp
  | cons s l ih => simp [List.foldl_cons, ih, add_assoc]

/-- Splitting a marching loop over an appended index list. -/
theorem marchOut_append {n : ℕ} (g : ℕ → Vec n → Vec n)
    (s : (ℕ → Vec n) × Vec n) (l1 l2 : List ℕ) :
    marchOut g s (l1 ++ l2) = marchOut g (marchOut g s l1) l2 := by
  simp [marchOut, List.foldl_append]

/-- The forward marching loop over indices 1..m realizes the forward
recurrence fwdSeq: the final carried vector is the value at m, and the
container holds the recurrence values at indices 1..m and the base
elsewhere. -/
theorem marchOut_fwd {n : ℕ} (g : ℕ → Vec n → Vec n) (base : ℕ → Vec n)
    (u0 : Vec n) (m : ℕ) :
    (marchOut g (base, u0) ((List.range m).map Nat.succ)).2 = fwdSeq g u0 m
    ∧ ∀ t, (marchOut g (base, u0) ((List.range m).map Nat.succ)).1 t
        = if 1 ≤ t ∧ t ≤ m then fwdSeq g u0 t else base t := by
  induction m with
  | zero =>
      constructor
      · rfl
      · intro t
        have h : ¬ (1 ≤ t ∧ t ≤ 0) := by omega
        rw [if_neg h]
        rfl
  | succ m ih =>
      obtain ⟨ih2, ih1⟩ := ih
      have hsplit : (List.range (m + 1)).map Nat.succ
          = (List.range m).map Nat.succ ++ [m + 1] := by
        rw [List.range_succ, List.map_append]
        rfl
      have hone : ∀ s : (ℕ → Vec n) × Vec n,
          marchOut g s [m + 1]
            = (Function.update s.1 (m + 1) (g (m + 1) s.2), g (m + 1) s.2) :=
        fun s => rfl
      rw [hsplit, marchOut_append, hone]
      constructor
      · rw [ih2]
        rfl
      · intro t
        by_cases ht : t = m + 1
        · subst ht
          show Function.update _ (m + 1) _ (m + 1) = _
          rw [Function.update_same, ih2]
          have hcond : 1 ≤ m + 1 ∧ m + 1 ≤ m + 1 := by omega
          rw [if_pos hcond]
          rfl
        · show Function.update _ (m + 1) _ t = _
          rw [Function.update_noteq ht, ih1 t]
          by_cases h1 : 1 ≤ t ∧ t ≤ m
          · rw [if_pos h1, if_pos (show 1 ≤ t ∧ t ≤ m + 1 by omega)]
          · rw [if_neg h1, if_neg (show ¬ (1 ≤ t ∧ t ≤ m + 1) by omega)]

/-- Shifting the backward recurrence by one time step: starting the sweep
at top index T + 1 and taking k + 1 steps is the same as first stepping
from the incoming value and then sweeping from top index T. -/
theorem adjGo_shift {n : ℕ} (g : ℕ → Vec n → Vec n) (p0 : Vec n) (T k : ℕ) :
    adjGo g (g (T + 1) p0) T k = adjGo g p0 (T + 1) (k + 1) := by
  induction k with
  | zero =>
      show g T (g (T + 1) p0) = g (T + 1 - 1) (g (T + 1) p0)
      rw [show T + 1 - 1 = T from by omega]
  | succ k ih =>
      show g (T - (k + 1)) (adjGo g (g (T + 1) p0) T k)
          = g (T + 1 - (k + 1 + 1)) (adjGo g p0 (T + 1) (k + 1))
      rw [ih, show T + 1 - (k + 1 + 1) = T - (k + 1) from by omega]

/-- The backward marching loop over the reversed index list realizes the
backward recurrence adjGo: the container holds the recurrence values at
indices 0..T and the base elsewhere. -/
theorem marchOut_adj {n : ℕ} (g : ℕ → Vec n → Vec n) (T : ℕ) :
    ∀ (base : ℕ → Vec n) (p0 : Vec n),
      (marchOut g (base, p0) (revTimes T)).2 = adjGo g p0 T T
      ∧ ∀ t, (marchOut g (base, p0) (revTimes T)).1 t
          = if t ≤ T then adjGo g p0 T (T - t) else base t := by
  induction T with
  | zero =>
      intro base p0
      rw [revTimes_zero]
      constructor
      · rfl
      · intro t
        by_cases ht : t = 0
        · subst ht
          show Function.update base 0 (g 0 p0) 0 = _
          rw [Function.update_same, if_pos (le_refl 0)]
          rfl
        · show Function.update base 0 (g 0 p0) t = _
          rw [Function.update_noteq ht, if_neg (by omega)]
  | succ T ih =>
      intro base p0
      rw [revTimes_succ]
      have hcons : marchOut g (base, p0) ((T + 1) :: revTimes T)
          = marchOut g
              (Function.update base (T + 1) (g (T + 1) p0), g (T + 1) p0)
              (revTimes T) := rfl
      rw [hcons]
      obtain ⟨ih2, ih1⟩ :=
        ih (Function.update base (T + 1) (g (T + 1) p0)) (g (T + 1) p0)
      constructor
      · rw [ih2, adjGo_shift]
      · intro t
        rw [ih1 t]
        by_cases h : t ≤ T
        · rw [if_pos h, if_pos (show t ≤ T + 1 by omega)]
          have hk : T + 1 - t = (T - t) + 1 := by omega
          rw [hk, ← adjGo_shift]
        · by_cases h2 : t = T + 1
          · subst h2
            rw [if_neg h, Function.update_same, if_pos (le_refl (T + 1))]
            have hk : T + 1 - (T + 1) = 0 := by omega
            rw [hk]
            rfl
          · rw [if_neg h, Function.update_noteq h2, if_neg (by omega)]

/-- Evaluating the time-indexed store loops of apply_ij: the value at t is
the stored one for 1 <= t <= nt and zero elsewhere (in particular at
the initial index, where a zero vector was stored). -/
theorem timeIdxLoop_apply {n : ℕ} (nt : ℕ) (val : ℕ → Vec n) (t : ℕ) :
    ((stepTimes nt).foldl (fun o s => Function.update o s (val s))
        (Function.update (fun _ => (0 : Vec n)) 0 (0 : Vec n))) t
      = if 1 ≤ t ∧ t ≤ nt then val t else 0 := by
  rw [foldl_update_apply]
  by_cases h : t ∈ stepTimes nt
  · rw [if_pos h, if_pos (mem_stepTimes.mp h)]
  · rw [if_neg h, if_neg (fun hc => h (mem_stepTimes.mpr hc))]
    by_cases ht : t = 0
    · subst ht
      exact Function.update_same _ _ _
    · rw [Function.update_noteq ht]

/-- Evaluating the accumulation loops of apply_ij and updategrade. -/
theorem sumLoop_eq {np : ℕ} (nt : ℕ) (val : ℕ → Vec np) :
    (stepTimes nt).foldl (fun acc t => acc + val t) (0 : Vec np)
      = ((stepTimes nt).map val).sum := by
  rw [foldl_add_eq, zero_add]

/-- Claim C6: the misfit cost is the sum over observation times only of
the squared observation residual, divided by twice the noise variance,
and it does not depend on the state at simulation times that are not
observation times. -/
theorem misfit_cost_spec {n no np : ℕ} (mf : Misfit n no) (x : Triple n np) :
    Misfit.cost mf x
      = ((mf.obsTimes.map (fun t =>
            dotProduct (mf.B.mulVec (x.u t) - mf.d t)
              (mf.B.mulVec (x.u t) - mf.d t))).sum)
        / (2 * mf.noise_variance)
    ∧ ∀ y : Triple n np, (∀ t ∈ mf.obsTimes, y.u t = x.u t) →
        Misfit.cost mf y = Misfit.cost mf x := by
  have hform : ∀ y : Triple n np,
      Misfit.cost mf y
        = ((mf.obsTimes.map (fun t =>
              dotProduct (mf.B.mulVec (y.u t) - mf.d t)
                (mf.B.mulVec (y.u t) - mf.d t))).sum)
          / (2 * mf.noise_variance) := by
    intro y
    unfold Misfit.cost
    rw [foldl_add_eq, zero_add]
  refine ⟨hform x, ?_⟩
  intro y hy
  rw [hform y, hform x]
  have hmap : mf.obsTimes.map (fun t =>
        dotProduct (mf.B.mulVec (y.u t) - mf.d t) (mf.B.mulVec (y.u t) - mf.d t))
      = mf.obsTimes.map (fun t =>
        dotProduct (mf.B.mulVec (x.u t) - mf.d t) (mf.B.mulVec (x.u t) - mf.d t)) := by
    apply List.map_congr_left
    intro t ht
    rw [hy t ht]
  rw [hmap]

/-- Claim C7: the misfit gradient is nonzero only for the state block:
for i equal to the state tag it is the scaled adjoint observation
residual at each observation time and zero at every other time; for
every other block tag the output is exactly zero. -/
theorem misfit_grad_spec {n no np : ℕ} (mf : Misfit n no) (i : ℕ)
    (x : Triple n np) (out : ℕ → Vec n) (t : ℕ) :
    Misfit.grad mf i x out t
      = if i = STATE ∧ t ∈ mf.obsTimes
        then (1 / mf.noise_variance) •
          mf.B.transpose.mulVec (mf.B.mulVec (x.u t) - mf.d t)
        else 0 := by
  simp only [Misfit.grad]
  by_cases hi : i = STATE
  · rw [if_pos hi, foldl_update_apply]
    by_cases ht : t ∈ mf.obsTimes
    · rw [if_pos ht, if_pos (show i = STATE ∧ t ∈ mf.obsTimes from ⟨hi, ht⟩),
        Matrix.mulVec_smul]
    · rw [if_neg ht, if_neg (fun hc => ht hc.2)]
  · rw [if_neg hi, if_neg (fun hc => hi hc.1)]

/-- Claim C8: the misfit second derivative is nonzero only for the
state-state block, where at each observation time it is the scaled
normal operator of the observation applied to the direction at that
time (zero at non-observation times); every other block pair gives
exactly zero. -/
theorem misfit_apply_ij_spec {n no : ℕ} (mf : Misfit n no) (i j : ℕ)
    (direction : ℕ → Vec n) (out : ℕ → Vec n) (t : ℕ) :
    Misfit.apply_ij mf i j direction out t
      = if i = STATE ∧ j = STATE ∧ t ∈ mf.obsTimes
        then (1 / mf.noise_variance) •
          (mf.B.transpose * mf.B).mulVec (direction t)
        else 0 := by
  simp only [Misfit.apply_ij]
  by_cases hij : i = STATE ∧ j = STATE
  · rw [if_pos hij, foldl_update_apply]
    by_cases ht : t ∈ mf.obsTimes
    · rw [if_pos ht,
        if_pos (show i = STATE ∧ j = STATE ∧ t ∈ mf.obsTimes from
          ⟨hij.1, hij.2, ht⟩),
        Matrix.mulVec_smul, Matrix.mulVec_mulVec]
    · rw [if_neg ht, if_neg (fun hc => ht hc.2.2)]
  · rw [if_neg hij, if_neg (fun hc => hij ⟨hc.1, hc.2.1⟩)]

/-- Claim C5: evalGradientParameter assembles mg as the regularization
gradient (the prior precision applied to the parameter minus the prior
mean, omitted exactly when misfit_only is set) plus the dt-scaled sum
over the stored time steps of the assembled parameter derivative of
the residual form at the stored state and adjoint, and returns as
diagnostic the quadratic form of mg in the metric of the prior mass
solver (the squared gradient norm in that preconditioned metric). -/
theorem evalGradientParameter_spec {n np : ℕ} (mdl : TDModel n np)
    (pr : Prior np) (x : Triple n np) (misfit_only : Bool) :
    (mdl.evalGradientParameter pr x misfit_only).1
      = (if misfit_only = false then pr.R.mulVec (x.m - pr.mean) else 0)
        + mdl.dt •
            ((stepTimes mdl.nt).map (fun t => mdl.dGm (x.u t) x.m (x.p t))).sum
    ∧ (mdl.evalGradientParameter pr x misfit_only).2
      = dotProduct (pr.Msolve (mdl.evalGradientParameter pr x misfit_only).1)
          ((mdl.evalGradientParameter pr x misfit_only).1) := by
  constructor
  · show (if misfit_only = false then pr.R.mulVec (x.m - pr.mean) else 0)
        + mdl.updategrade x = _
    rw [TDModel.updategrade, sumLoop_eq]
  · rfl

/-- Pointwise contents of the state history produced by the aliased
forward solve: the initial condition at index 0 (and at every index
beyond the grid the zeroed container shows through), and the forward
recurrence values at indices 1..nt. -/
theorem solveFwdSelf_char {n np : ℕ} (mdl : TDModel n np)
    (lsolve : Vec n → Vec n) (x : Triple n np) (t : ℕ) :
    (mdl.solveFwdSelf lsolve x).u t
      = if 1 ≤ t ∧ t ≤ mdl.nt
        then fwdSeq (fun _ uold => lsolve (mdl.M_stab.mulVec uold)) mdl.ic t
        else Function.update (fun _ => (0 : Vec n)) 0 mdl.ic t := by
  have hrfl : (mdl.solveFwdSelf lsolve x).u
      = (marchOut (fun _ uold => lsolve (mdl.M_stab.mulVec uold))
          (Function.update (fun _ => (0 : Vec n)) 0 mdl.ic, mdl.ic)
          ((List.range mdl.nt).map Nat.succ)).1 := by
    rw [← stepTimes_eq_map]
    rfl
  rw [hrfl]
  exact (marchOut_fwd _ _ _ _).2 t

/-- One unfolding step of the backward recurrence, with the time index
rewritten. -/
theorem adjGo_succ_eq {n : ℕ} (g : ℕ → Vec n → Vec n) (p0 : Vec n)
    (T k t : ℕ) (h : T - (k + 1) = t) :
    adjGo g p0 T (k + 1) = g t (adjGo g p0 T k) := by
  subst h
  rfl

/-- Claim C3: solveFwd (called, as everywhere in the repository, with the
output container aliased to the state history of x) builds the
transport operator at the current parameter inside the implicit
operator Lmat, and the stored state at each simulation time after the
first solves that implicit system against M_stab times the previous
state; the full state history is populated, with the initial condition
stored unmodified at index 0.  The hypothesis states that the external
factorized solver is exact for the operator built by
define_Fwd_solver. -/
theorem solveFwd_spec {n np : ℕ} (mdl : TDModel n np) (lsolve : Vec n → Vec n)
    (x : Triple n np)
    (hs : ∀ b, (Lmat mdl x.m).mulVec (lsolve b) = b) :
    (mdl.solveFwdSelf lsolve x).u 0 = mdl.ic
    ∧ ∀ t, 1 ≤ t → t ≤ mdl.nt →
        (Lmat mdl x.m).mulVec ((mdl.solveFwdSelf lsolve x).u t)
          = mdl.M_stab.mulVec ((mdl.solveFwdSelf lsolve x).u (t - 1)) := by
  constructor
  · rw [solveFwdSelf_char, if_neg (by omega)]
    exact Function.update_same _ _ _
  · intro t h1 h2
    obtain ⟨k, rfl⟩ : ∃ k, t = k + 1 := ⟨t - 1, by omega⟩
    have hk1 : k + 1 - 1 = k := by omega
    rw [solveFwdSelf_char mdl lsolve x (k + 1), if_pos ⟨h1, h2⟩, hk1,
      solveFwdSelf_char mdl lsolve x k]
    have hrk : (if 1 ≤ k ∧ k ≤ mdl.nt
        then fwdSeq (fun _ uold => lsolve (mdl.M_stab.mulVec uold)) mdl.ic k
        else Function.update (fun _ => (0 : Vec n)) 0 mdl.ic k)
        = fwdSeq (fun _ uold => lsolve (mdl.M_stab.mulVec uold)) mdl.ic k := by
      by_cases hk : 1 ≤ k ∧ k ≤ mdl.nt
      · rw [if_pos hk]
      · have hk0 : k = 0 := by omega
        subst hk0
        rw [if_neg hk]
        exact Function.update_same _ _ _
    rw [hrk]
    exact hs _

/-- Witness for claim C3 at the concrete one-dimensional instance with
the identity solver (the built operator is the identity there). -/
theorem solveFwd_spec_w :
    (exModel.solveFwdSelf id exX).u 0 = exModel.ic
    ∧ ∀ t, 1 ≤ t → t ≤ exModel.nt →
        (Lmat exModel exX.m).mulVec ((exModel.solveFwdSelf id exX).u t)
          = exModel.M_stab.mulVec ((exModel.solveFwdSelf id exX).u (t - 1)) :=
  solveFwd_spec exModel id exX (fun b => by
    show (Lmat exModel exX.m).mulVec b = b
    rw [show Lmat exModel exX.m = 1 from by simp [Lmat, exModel],
      Matrix.one_mulVec])

/-- Claim C10: solveFwd with distinct containers stores the initial
condition into the state component of x at the initial index, leaves
the parameter and adjoint components of x unchanged (and the state
history unchanged away from index 0), and the output container keeps
the zero it was reset to at index 0, receiving entries only at
simulation times strictly after the initial one, where it agrees with
the aliased state history. -/
theorem solveFwd_frame {n np : ℕ} (mdl : TDModel n np) (lsolve : Vec n → Vec n)
    (out : ℕ → Vec n) (x : Triple n np) :
    (mdl.solveFwd lsolve out x).1 0 = 0
    ∧ (mdl.solveFwd lsolve out x).2.u 0 = mdl.ic
    ∧ (∀ t, t ≠ 0 → (mdl.solveFwd lsolve out x).2.u t = x.u t)
    ∧ (mdl.solveFwd lsolve out x).2.m = x.m
    ∧ (mdl.solveFwd lsolve out x).2.p = x.p
    ∧ ∀ t, 1 ≤ t →
        (mdl.solveFwd lsolve out x).1 t = (mdl.solveFwdSelf lsolve x).u t := by
  have hout : ∀ t, (mdl.solveFwd lsolve out x).1 t
      = if 1 ≤ t ∧ t ≤ mdl.nt
        then fwdSeq (fun _ uold => lsolve (mdl.M_stab.mulVec uold)) mdl.ic t
        else 0 := by
    intro t
    have hrfl : (mdl.solveFwd lsolve out x).1
        = (marchOut (fun _ uold => lsolve (mdl.M_stab.mulVec uold))
            ((fun _ => (0 : Vec n)), mdl.ic)
            ((List.range mdl.nt).map Nat.succ)).1 := by
      rw [← stepTimes_eq_map]
      rfl
    rw [hrfl, (marchOut_fwd _ _ _ _).2 t]
  refine ⟨?_, ?_, ?_, rfl, rfl, ?_⟩
  · rw [hout 0, if_neg (by omega)]
  · show Function.update x.u 0 mdl.ic 0 = mdl.ic
    exact Function.update_same _ _ _
  · intro t ht
    show Function.update x.u 0 mdl.ic t = x.u t
    exact Function.update_noteq ht _ _
  · intro t h1
    rw [hout t, solveFwdSelf_char]
    by_cases h2 : t ≤ mdl.nt
    · rw [if_pos ⟨h1, h2⟩, if_pos ⟨h1, h2⟩]
    · rw [if_neg (fun hc => h2 hc.2), if_neg (fun hc => h2 hc.2),
        Function.update_noteq (by omega : t ≠ 0)]

/-- Witness for claim C10 at the concrete one-dimensional instance. -/
theorem solveFwd_frame_w :
    (exModel.solveFwd id (fun _ => 0) exX).1 0 = 0
    ∧ (exModel.solveFwd id (fun _ => 0) exX).2.u 0 = exModel.ic
    ∧ (∀ t, t ≠ 0 → (exModel.solveFwd id (fun _ => 0) exX).2.u t = exX.u t)
    ∧ (exModel.solveFwd id (fun _ => 0) exX).2.m = exX.m
    ∧ (exModel.solveFwd id (fun _ => 0) exX).2.p = exX.p
    ∧ ∀ t, 1 ≤ t →
        (exModel.solveFwd id (fun _ => 0) exX).1 t
          = (exModel.solveFwdSelf id exX).u t :=
  solveFwd_frame exModel id (fun _ => 0) exX

/-- Claim C9: solveFwdIncremental stores the zero vector at the initial
index (homogeneous initial condition) and then, reusing the factorized
forward operator, marches forward so that each later stored increment
solves the implicit system against M_stab times the previous increment
minus the supplied right-hand side at that time (the supplied
right-hand side enters with a negative sign).  The hypothesis states
that the solver is the factorized forward operator for the parameter
m. -/
theorem solveFwdIncremental_spec {n np : ℕ} (mdl : TDModel n np)
    (lsolve : Vec n → Vec n) (sol rhs : ℕ → Vec n) (m : Vec np)
    (hs : ∀ b, (Lmat mdl m).mulVec (lsolve b) = b) :
    mdl.solveFwdIncremental lsolve sol rhs 0 = 0
    ∧ ∀ t, 1 ≤ t → t ≤ mdl.nt →
        (Lmat mdl m).mulVec (mdl.solveFwdIncremental lsolve sol rhs t)
          = mdl.M_stab.mulVec (mdl.solveFwdIncremental lsolve sol rhs (t - 1))
            - rhs t := by
  have hchar : ∀ t, mdl.solveFwdIncremental lsolve sol rhs t
      = if 1 ≤ t ∧ t ≤ mdl.nt
        then fwdSeq (fun s uold => lsolve (mdl.M_stab.mulVec uold - rhs s))
            (0 : Vec n) t
        else Function.update (fun _ => (0 : Vec n)) 0 (0 : Vec n) t := by
    intro t
    have hrfl : mdl.solveFwdIncremental lsolve sol rhs
        = (marchOut (fun s uold => lsolve (mdl.M_stab.mulVec uold - rhs s))
            (Function.update (fun _ => (0 : Vec n)) 0 (0 : Vec n), (0 : Vec n))
            ((List.range mdl.nt).map Nat.succ)).1 := by
      rw [← stepTimes_eq_map]
      rfl
    rw [hrfl]
    exact (marchOut_fwd _ _ _ _).2 t
  constructor
  · rw [hchar 0, if_neg (by omega)]
    exact Function.update_same _ _ _
  · intro t h1 h2
    obtain ⟨k, rfl⟩ : ∃ k, t = k + 1 := ⟨t - 1, by omega⟩
    have hk1 : k + 1 - 1 = k := by omega
    rw [hchar (k + 1), if_pos ⟨h1, h2⟩, hk1, hchar k]
    have hrk : (if 1 ≤ k ∧ k ≤ mdl.nt
        then fwdSeq (fun s uold => lsolve (mdl.M_stab.mulVec uold - rhs s))
            (0 : Vec n) k
        else Function.update (fun _ => (0 : Vec n)) 0 (0 : Vec n) k)
        = fwdSeq (fun s uold => lsolve (mdl.M_stab.mulVec uold - rhs s))
            (0 : Vec n) k := by
      by_cases hk : 1 ≤ k ∧ k ≤ mdl.nt
      · rw [if_pos hk]
      · have hk0 : k = 0 := by omega
        subst hk0
        rw [if_neg hk]
        exact Function.update_same _ _ _
    rw [hrk]
    exact hs _

/-- Witness for claim C9 at the concrete one-dimensional instance with
the identity solver and a constant right-hand side. -/
theorem solveFwdIncremental_spec_w :
    exModel.solveFwdIncremental id (fun _ => 0) (fun _ => fun _ => 1) 0 = 0
    ∧ ∀ t, 1 ≤ t → t ≤ exModel.nt →
        (Lmat exModel exX.m).mulVec
            (exModel.solveFwdIncremental id (fun _ => 0) (fun _ => fun _ => 1) t)
          = exModel.M_stab.mulVec
              (exModel.solveFwdIncremental id (fun _ => 0)
                (fun _ => fun _ => 1) (t - 1))
            - (fun _ => fun _ => (1 : ℚ)) t :=
  solveFwdIncremental_spec exModel id (fun _ => 0) (fun _ => fun _ => 1) exX.m
    (fun b => by
      show (Lmat exModel exX.m).mulVec b = b
      rw [show Lmat exModel exX.m = 1 from by simp [Lmat, exModel],
        Matrix.one_mulVec])

/-- Claim C4: solveAdj computes the misfit state-gradient history as the
forcing, builds the adjoint operator assembled from the transposed
transport term, and marches backward from the final time to the first:
every stored adjoint solves that operator against Mt_stab times the
adjoint at the next later time minus the forcing, and at the final
time the future contribution is Mt_stab applied to zero; the history
is populated down to and including index 0.  The hypothesis states
that the external solver is exact for the operator built by
define_Adj_solver. -/
theorem solveAdj_spec {n no np : ℕ} (mdl : TDModel n np) (mf : Misfit n no)
    (lsolvet : Vec n → Vec n) (out : ℕ → Vec n) (x : Triple n np)
    (hs : ∀ b, (Ltmat mdl x.m).mulVec (lsolvet b) = b) :
    (Ltmat mdl x.m).mulVec (mdl.solveAdj mf lsolvet out x mdl.nt)
      = mdl.Mt_stab.mulVec 0 - Misfit.grad mf STATE x (fun _ => 0) mdl.nt
    ∧ ∀ t, t < mdl.nt →
        (Ltmat mdl x.m).mulVec (mdl.solveAdj mf lsolvet out x t)
          = mdl.Mt_stab.mulVec (mdl.solveAdj mf lsolvet out x (t + 1))
            - Misfit.grad mf STATE x (fun _ => 0) t := by
  have hchar : ∀ t, mdl.solveAdj mf lsolvet out x t
      = if t ≤ mdl.nt
        then adjGo (fun s pold => lsolvet (mdl.Mt_stab.mulVec pold
              - Misfit.grad mf STATE x (fun _ => 0) s)) (0 : Vec n) mdl.nt
            (mdl.nt - t)
        else 0 := by
    intro t
    have hrfl : mdl.solveAdj mf lsolvet out x
        = (marchOut (fun s pold => lsolvet (mdl.Mt_stab.mulVec pold
              - Misfit.grad mf STATE x (fun _ => 0) s))
            ((fun _ => (0 : Vec n)), (0 : Vec n)) (revTimes mdl.nt)).1 := rfl
    rw [hrfl,
      ((marchOut_adj (fun s pold => lsolvet (mdl.Mt_stab.mulVec pold
          - Misfit.grad mf STATE x (fun _ => 0) s)) mdl.nt
        (fun _ => (0 : Vec n)) (0 : Vec n)).2 t)]
  constructor
  · rw [hchar mdl.nt, if_pos (le_refl mdl.nt), Nat.sub_self]
    exact hs _
  · intro t ht
    rw [hchar t, if_pos (show t ≤ mdl.nt by omega), hchar (t + 1),
      if_pos (show t + 1 ≤ mdl.nt by omega)]
    have hk : mdl.nt - t = (mdl.nt - (t + 1)) + 1 := by omega
    rw [hk, adjGo_succ_eq _ _ _ _ t (by omega)]
    exact hs _

/-- Witness for claim C4 at the concrete one-dimensional instance with
the identity solver (the built adjoint operator is the identity
there). -/
theorem solveAdj_spec_w :
    (Ltmat exModel exX.m).mulVec
        (exModel.solveAdj exMisfit id (fun _ => 0) exX exModel.nt)
      = exModel.Mt_stab.mulVec 0
        - Misfit.grad exMisfit STATE exX (fun _ => 0) exModel.nt
    ∧ ∀ t, t < exModel.nt →
        (Ltmat exModel exX.m).mulVec
            (exModel.solveAdj exMisfit id (fun _ => 0) exX t)
          = exModel.Mt_stab.mulVec
              (exModel.solveAdj exMisfit id (fun _ => 0) exX (t + 1))
            - Misfit.grad exMisfit STATE exX (fun _ => 0) t :=
  solveAdj_spec exModel exMisfit id (fun _ => 0) exX (fun b => by
    show (Ltmat exModel exX.m).mulVec b = b
    rw [show Ltmat exModel exX.m = 1 from by
        simp [Ltmat, exModel, Matrix.transpose_zero],
      Matrix.one_mulVec])

/-- Claim C1 (counterexample): the claim states that apply_ij fails
loudly (raises an error) for a block index pair outside the documented
six plus state-state; at the concrete adjoint-adjoint pair the
dispatcher instead returns normally, so the call is not an error. -/
theorem apply_ij_adjoint_adjoint_ok :
    exceptOk (exModel.apply_ij exX ADJOINT ADJOINT
        (BVec.timeIdx (fun _ => 0)) (BVec.timeIdx (fun _ => 0))) = true := rfl

/-- Claim C1 (amended): for every linearization point and direction, a
block index pair matched by no branch of apply_ij (outside the five
implemented non-state-state blocks and state-state) is silently
ignored: the dispatcher falls through the conditional chain, leaves
the output container zeroed, and returns normally instead of raising
an error. -/
theorem apply_ij_unsupported_silent {n np : ℕ} (mdl : TDModel n np)
    (x : Triple n np) (i j : ℕ) (direction out : BVec n np)
    (h : ¬ ((i = STATE ∧ j = STATE) ∨ (i = STATE ∧ j = PARAMETER)
        ∨ (i = ADJOINT ∧ j = PARAMETER) ∨ (i = PARAMETER ∧ j = PARAMETER)
        ∨ (i = PARAMETER ∧ j = ADJOINT) ∨ (i = PARAMETER ∧ j = STATE))) :
    mdl.apply_ij x i j direction out = Except.ok (BVec.zeroLike out) := by
  have h1 : ¬ (i = STATE ∧ j = STATE) := fun hc => h (Or.inl hc)
  have h2 : ¬ (i = STATE ∧ j = PARAMETER) := fun hc => h (Or.inr (Or.inl hc))
  have h3 : ¬ (i = ADJOINT ∧ j = PARAMETER) :=
    fun hc => h (Or.inr (Or.inr (Or.inl hc)))
  have h4 : ¬ (i = PARAMETER ∧ j = PARAMETER) :=
    fun hc => h (Or.inr (Or.inr (Or.inr (Or.inl hc))))
  have h5 : ¬ (i = PARAMETER ∧ j = ADJOINT) :=
    fun hc => h (Or.inr (Or.inr (Or.inr (Or.inr (Or.inl hc)))))
  have h6 : ¬ (i = PARAMETER ∧ j = STATE) :=
    fun hc => h (Or.inr (Or.inr (Or.inr (Or.inr (Or.inr hc)))))
  simp only [TDModel.apply_ij, if_pos h1, if_neg h2, if_neg h3, if_neg h4,
    if_neg h5, if_neg h6]

/-- Witness for the amended claim C1 at the concrete adjoint-state pair. -/
theorem apply_ij_unsupported_silent_w :
    exModel.apply_ij exX ADJOINT STATE (BVec.timeIdx (fun _ => 0))
        (BVec.timeIdx (fun _ => 0))
      = Except.ok (BVec.zeroLike (BVec.timeIdx (fun _ => 0))) :=
  apply_ij_unsupported_silent exModel exX ADJOINT STATE
    (BVec.timeIdx (fun _ => 0)) (BVec.timeIdx (fun _ => 0)) (by decide)

/-- Claim C2 (counterexample): the claim states that every block indexed
by state in either position is a time-indexed result; at the concrete
parameter-state pair the dispatcher returns a single spatial vector,
not a time-indexed one. -/
theorem apply_ij_param_state_spatial :
    Except.map BVec.isTimeIdx
        (exModel.apply_ij exX PARAMETER STATE
          (BVec.timeIdx (fun _ => fun _ => 1)) (BVec.spatial 0))
      = Except.ok false := rfl

/-- Claim C2 (amended): the state-parameter and adjoint-parameter blocks
of apply_ij are time-indexed results with the entry at the initial
index forced to zero and each later entry the dt-scaled directional
second derivative at that time, while the parameter-parameter,
parameter-adjoint and parameter-state blocks are single spatial
vectors accumulated by summation over all time steps and scaled once
by dt with uniform weighting. -/
theorem apply_ij_block_shapes {n np : ℕ} (mdl : TDModel n np)
    (x : Triple n np) :
    (∀ (dm : Vec np) (out : BVec n np),
        mdl.apply_ij x STATE PARAMETER (BVec.spatial dm) out
          = Except.ok (BVec.timeIdx (fun t =>
              if 1 ≤ t ∧ t ≤ mdl.nt
              then mdl.dt • mdl.d2_m_u (x.u t) x.m (x.p t) dm
              else 0)))
    ∧ (∀ (dm : Vec np) (out : BVec n np),
        mdl.apply_ij x ADJOINT PARAMETER (BVec.spatial dm) out
          = Except.ok (BVec.timeIdx (fun t =>
              if 1 ≤ t ∧ t ≤ mdl.nt
              then mdl.dt • mdl.d2_m_p (x.u t) x.m (x.p t) dm
              else 0)))
    ∧ (∀ (dm : Vec np) (out : BVec n np),
        mdl.apply_ij x PARAMETER PARAMETER (BVec.spatial dm) out
          = Except.ok (BVec.spatial (mdl.dt •
              ((stepTimes mdl.nt).map
                (fun t => mdl.d2_m_m (x.u t) x.m (x.p t) dm)).sum)))
    ∧ (∀ (dv : ℕ → Vec n) (out : BVec n np),
        mdl.apply_ij x PARAMETER ADJOINT (BVec.timeIdx dv) out
          = Except.ok (BVec.spatial (mdl.dt •
              ((stepTimes mdl.nt).map
                (fun t => mdl.d2_p_m (x.u t) x.m (x.p t) (dv t))).sum)))
    ∧ (∀ (dv : ℕ → Vec n) (out : BVec n np),
        mdl.apply_ij x PARAMETER STATE (BVec.timeIdx dv) out
          = Except.ok (BVec.spatial (mdl.dt •
              ((stepTimes mdl.nt).map
                (fun t => mdl.d2_u_m (x.u t) x.m (x.p t) (dv t))).sum))) := by
  refine ⟨?_, ?_, ?_, ?_, ?_⟩
  · intro dm out
    rw [show mdl.apply_ij x STATE PARAMETER (BVec.spatial dm) out
        = Except.ok (BVec.timeIdx ((stepTimes mdl.nt).foldl
            (fun o t => Function.update o t
              (mdl.dt • mdl.d2_m_u (x.u t) x.m (x.p t) dm))
            (Function.update (fun _ => (0 : Vec n)) 0 (0 : Vec n)))) from rfl]
    exact congrArg Except.ok (congrArg BVec.timeIdx (funext fun t =>
      timeIdxLoop_apply mdl.nt _ t))
  · intro dm out
    rw [show mdl.apply_ij x ADJOINT PARAMETER (BVec.spatial dm) out
        = Except.ok (BVec.timeIdx ((stepTimes mdl.nt).foldl
            (fun o t => Function.update o t
              (mdl.dt • mdl.d2_m_p (x.u t) x.m (x.p t) dm))
            (Function.update (fun _ => (0 : Vec n)) 0 (0 : Vec n)))) from rfl]
    exact congrArg Except.ok (congrArg BVec.timeIdx (funext fun t =>
      timeIdxLoop_apply mdl.nt _ t))
  · intro dm out
    rw [show mdl.apply_ij x PARAMETER PARAMETER (BVec.spatial dm) out
        = Except.ok (BVec.spatial (mdl.dt • (stepTimes mdl.nt).foldl
            (fun acc t => acc + mdl.d2_m_m (x.u t) x.m (x.p t) dm)
            (0 : Vec np))) from rfl, sumLoop_eq]
  · intro dv out
    rw [show mdl.apply_ij x PARAMETER ADJOINT (BVec.timeIdx dv) out
        = Except.ok (BVec.spatial (mdl.dt • (stepTimes mdl.nt).foldl
            (fun acc t => acc + mdl.d2_p_m (x.u t) x.m (x.p t) (dv t))
            (0 : Vec np))) from rfl, sumLoop_eq]
  · intro dv out
    rw [show mdl.apply_ij x PARAMETER STATE (BVec.timeIdx dv) out
        = Except.ok (BVec.spatial (mdl.dt • (stepTimes mdl.nt).foldl
            (fun acc t => acc + mdl.d2_u_m (x.u t) x.m (x.p t) (dv t))
            (0 : Vec np))) from rfl, sumLoop_eq]

/-- Witness for the amended claim C2: the parameter-parameter block at
the concrete one-dimensional instance. -/
theorem apply_ij_block_shapes_w :
    exModel.apply_ij exX PARAMETER PARAMETER (BVec.spatial (fun _ => 1))
        (BVec.spatial 0)
      = Except.ok (BVec.spatial (exModel.dt •
          ((stepTimes exModel.nt).map
            (fun t => exModel.d2_m_m (exX.u t) exX.m (exX.p t)
              (fun _ => 1))).sum)) :=
  (apply_ij_block_shapes exModel exX).2.2.1 (fun _ => 1) (BVec.spatial 0)

/-- Witness for claim C5: the diagnostic conjunct at the concrete
one-dimensional instance. -/
theorem evalGradientParameter_spec_w :
    (exModel.evalGradientParameter exPrior exX false).2
      = dotProduct
          (exPrior.Msolve (exModel.evalGradientParameter exPrior exX false).1)
          ((exModel.evalGradientParameter exPrior exX false).1) :=
  (evalGradientParameter_spec exModel exPrior exX false).2

/-- Witness for claim C6: changing the state at the non-observation time 0
leaves the cost unchanged at the concrete instance. -/
theorem misfit_cost_spec_w :
    Misfit.cost exMisfit exXb = Misfit.cost exMisfit exX :=
  (misfit_cost_spec exMisfit exX).2 exXb (by decide)

/-- Witness for claim C7 at the concrete instance, state block, time 1. -/
theorem misfit_grad_spec_w :
    Misfit.grad exMisfit STATE exX (fun _ => 0) 1
      = if STATE = STATE ∧ 1 ∈ exMisfit.obsTimes
        then (1 / exMisfit.noise_variance) •
          exMisfit.B.transpose.mulVec
            (exMisfit.B.mulVec (exX.u 1) - exMisfit.d 1)
        else 0 :=
  misfit_grad_spec exMisfit STATE exX (fun _ => 0) 1

/-- Witness for claim C8 at the concrete instance, state-state block,
time 1. -/
theorem misfit_apply_ij_spec_w :
    Misfit.apply_ij exMisfit STATE STATE (fun _ => fun _ => 1) (fun _ => 0) 1
      = if STATE = STATE ∧ STATE = STATE ∧ 1 ∈ exMisfit.obsTimes
        then (1 / exMisfit.noise_variance) •
          (exMisfit.B.transpose * exMisfit.B).mulVec ((fun _ => fun _ => (1 : ℚ)) 1)
        else 0 :=
  misfit_apply_ij_spec exMisfit STATE STATE (fun _ => fun _ => 1) (fun _ => 0) 1

end ModelAD
